import Mathlib

/-!
# Verification of the gridbot grid-trading engine

Shallow embedding of the core of the `gridbot` repository:
`grid_strategy.py` (class `GridTradingStrategy`) and the range-adjustment
slice of `bot_manager.py` (class `BotManager`).

Prices are modelled as exact rationals (`ℚ`); Python's `round(x, 2)` is
modelled as round-half-to-even at two decimal places.  Client order ids
(`order_link_id` strings such as `"grid_buy_100.0"` and
`"grid_sell_150.0_1699999999"`) are modelled by the inductive type
`OrderId`, keeping the components the f-string encodes (side, price, and
for rebalance orders the `int(time.time())` disambiguator); the string
encoding is injective in these components, so the structured form is
faithful.  The `active_orders` dict is modelled as an insertion-ordered
association list with insert-or-replace update, which is exactly the
behaviour of a Python dict.  Database writes are modelled as a list of
emitted `DbEvent`s, and the exchange gateway is modelled by explicit
inputs: the current ticker price, the set of open order ids reported by
the exchange, and a predicate saying which placements succeed.
-/

namespace GridBot

/-- Order side, `"Buy"` / `"Sell"` in the source. -/
inductive Side
  | Buy
  | Sell
deriving DecidableEq

/-- Local order state, the `status` field of an `active_orders` entry
(`'active'` / `'filled'`; the spec also names a Cancelled state). -/
inductive OrderStatus
  | active
  | filled
  | cancelled
deriving DecidableEq

/-- Client order id (`order_link_id`).  `initId side price` stands for the
string `f"grid_{side}_{price}"` built in `initialize_grid`;
`rebalanceId side price ts` stands for
`f"grid_{side}_{price}_{int(time.time())}"` built in
`_handle_filled_order`.  Both encodings are injective in their
components and the two shapes are never equal as strings, which is what
this inductive captures. -/
inductive OrderId
  | initId (side : Side) (price : ℚ)
  | rebalanceId (side : Side) (price : ℚ) (ts : ℕ)
deriving DecidableEq

/-- One `active_orders` dict value: `{"price": .., "side": ..,
"order_id": .., "status": ..}` (the exchange-assigned `order_id` plays no
role in reconciliation and is dropped). -/
structure OrderInfo where
  price : ℚ
  side : Side
  status : OrderStatus
deriving DecidableEq

/-- The `active_orders` dict: an insertion-ordered association list from
`order_link_id` to order info. -/
abbrev Orders := List (OrderId × OrderInfo)

/-- A write to the persistence layer (`Database`), as issued by the
strategy: `db.update_order_status`, `db.add_trade`, `db.add_order`. -/
inductive DbEvent
  | updateOrderStatusEv (id : OrderId) (st : OrderStatus) (ts : ℕ)
  | addTradeEv (side : Side) (price qty : ℚ)
  | addOrderEv (id : OrderId) (side : Side) (price qty : ℚ) (st : OrderStatus)
deriving DecidableEq

/-- Round-half-to-even to an integer, the semantics of Python's builtin
`round` on an exact value. -/
def roundHalfEven (q : ℚ) : ℤ :=
  if q - ⌊q⌋ < 1/2 then ⌊q⌋
  else if 1/2 < q - ⌊q⌋ then ⌊q⌋ + 1
  else if ⌊q⌋ % 2 = 0 then ⌊q⌋ else ⌊q⌋ + 1

/-- Python `round(q, 2)`: round-half-to-even at two decimal places. -/
def round2 (q : ℚ) : ℚ := (roundHalfEven (100 * q) : ℚ) / 100

/-- Models `GridTradingStrategy._calculate_grid_prices` (grid_strategy.py
lines 71–83): `step = (upper - lower) / (levels - 1)`;
`prices = [lower + step * i for i in range(levels)]`, each rounded to two
decimals.  Python raises `ZeroDivisionError` when `grid_levels == 1`
(`levels - 1 == 0`); that failure is the `none` case. -/
def calculate_grid_prices (grid_levels : ℕ) (lower_price upper_price : ℚ) :
    Option (List ℚ) :=
  if grid_levels = 1 then none
  else
    let step := (upper_price - lower_price) / ((grid_levels : ℚ) - 1)
    some ((List.range grid_levels).map fun i : ℕ =>
      round2 (lower_price + step * (i : ℚ)))

/-- The range/level validation performed by `BotManager.configure`
(bot_manager.py lines 77–93): it rejects `grid_lower >= grid_upper`,
`grid_levels < 2` and `order_amount <= 0`, and accepts otherwise. -/
def configure_accepts (grid_levels : ℤ) (grid_lower grid_upper order_amount : ℚ) :
    Bool :=
  !(decide (grid_upper ≤ grid_lower)) && !(decide (grid_levels < 2))
    && !(decide (order_amount ≤ 0))

/-- Result of the range auto-adjustment step of `BotManager.start`. -/
structure RangeAdjust where
  grid_lower : ℚ
  grid_upper : ℚ
  auto_adjusted : Bool
deriving DecidableEq

/-- Models `BotManager.start`, range-adjustment slice (bot_manager.py
lines 153–173): if the current price is outside `[grid_lower,
grid_upper]` the range becomes `[round(price*0.95, 2),
round(price*1.05, 2)]` and `auto_adjusted` is set.  The same two local
variables are then stored into `self.config` (lines 166–167), passed to
`db.update_bot_status` (lines 206–207), and the success message reports
the adjustment exactly when `auto_adjusted` is set (lines 216–217). -/
def adjust_range (current_price grid_lower grid_upper : ℚ) : RangeAdjust :=
  if current_price < grid_lower ∨ grid_upper < current_price then
    { grid_lower := round2 (current_price * (1 - 1/20))
      grid_upper := round2 (current_price * (1 + 1/20))
      auto_adjusted := true }
  else
    { grid_lower := grid_lower, grid_upper := grid_upper, auto_adjusted := false }

/-- Python `list.index(x)` restricted to rationals: first index of `x`,
`none` for the `ValueError` case. -/
def rat_index : List ℚ → ℚ → Option ℕ
  | [], _ => none
  | q :: rest, p => if q = p then some 0 else (rat_index rest p).map (· + 1)

/-- Python `min` on a nonempty list of rationals (`0` on the empty list,
where Python would raise `ValueError`; never reached on a grid). -/
def list_min : List ℚ → ℚ
  | [] => 0
  | x :: rest => rest.foldl min x

/-- The defensive branch of `_find_next_grid_level` (lines 312–315):
`differences = [abs(p - current_price) for p in grid_prices]`;
`differences.index(min(differences))` — the first index attaining the
minimal absolute distance. -/
def nearest_index (grid_prices : List ℚ) (current_price : ℚ) : ℕ :=
  let differences := grid_prices.map fun p => |p - current_price|
  (rat_index differences (list_min differences)).getD 0

/-- The `current_index` computed by `_find_next_grid_level`
(lines 310–315): `grid_prices.index(current_price)`, falling back to the
nearest level on `ValueError`. -/
def grid_index (grid_prices : List ℚ) (current_price : ℚ) : ℕ :=
  match rat_index grid_prices current_price with
  | some i => i
  | none => nearest_index grid_prices current_price

/-- Models `GridTradingStrategy._find_next_grid_level` (lines 295–326): for a
filled Buy return the level above `current_index` if any, for a filled
Sell the level below, `none` at the boundary. -/
def find_next_grid_level (grid_prices : List ℚ) (current_price : ℚ)
    (side : Side) : Option ℚ :=
  let current_index := grid_index grid_prices current_price
  match side with
  | Side.Buy =>
      if current_index < grid_prices.length - 1 then grid_prices[current_index + 1]?
      else none
  | Side.Sell =>
      if 0 < current_index then grid_prices[current_index - 1]?
      else none

/-- Models `new_side = "Sell" if filled_side == "Buy" else "Buy"`
(grid_strategy.py line 252). -/
def opposite : Side → Side
  | Side.Buy => Side.Sell
  | Side.Sell => Side.Buy

/-- The replacement order `_handle_filled_order` attempts for a fill at
`filled_price` on `filled_side`: opposite side at the adjacent level, or
nothing at the grid boundary. -/
def replacement_order (grid_prices : List ℚ) (filled_side : Side)
    (filled_price : ℚ) : Option (Side × ℚ) :=
  (find_next_grid_level grid_prices filled_price filled_side).map
    fun p => (opposite filled_side, p)

/-- One iteration of the placement loop of `initialize_grid`
(lines 110–188): a Buy below the current price, a Sell above it, nothing
at a level equal to it. -/
def init_order (current_price price : ℚ) : Option (OrderId × OrderInfo) :=
  if price < current_price then
    some (OrderId.initId Side.Buy price,
      { price := price, side := Side.Buy, status := OrderStatus.active })
  else if current_price < price then
    some (OrderId.initId Side.Sell price,
      { price := price, side := Side.Sell, status := OrderStatus.active })
  else none

/-- The sequence of `(side, price)` placement requests `initialize_grid`
issues to `client.place_order`, in grid order. -/
def init_placements (grid_prices : List ℚ) (current_price : ℚ) :
    List (Side × ℚ) :=
  grid_prices.filterMap fun price =>
    if price < current_price then some (Side.Buy, price)
    else if current_price < price then some (Side.Sell, price)
    else none

/-- Models `GridTradingStrategy.initialize_grid` (lines 85–190) with every
placement acknowledged by the gateway: the resulting `active_orders`
dict. -/
def initialize_grid (grid_prices : List ℚ) (current_price : ℚ) : Orders :=
  grid_prices.filterMap (init_order current_price)

/-- The fill test of `check_and_rebalance` (line 203):
`order_link_id not in open_order_ids and order_info['status'] ==
'active'`. -/
def is_filled_now (open_ids : List OrderId) (r : OrderId × OrderInfo) : Bool :=
  !(open_ids.contains r.1) && (r.2.status = OrderStatus.active)

/-- The status mutation of the fill-detection loop (lines 202–209):
every active record absent from the exchange's open set becomes
`filled`; all other records are untouched. -/
def mark_filled (open_ids : List OrderId) (orders : Orders) : Orders :=
  orders.map fun r =>
    if is_filled_now open_ids r then (r.1, { r.2 with status := OrderStatus.filled })
    else r

/-- The `filled_orders` list collected by the fill-detection loop
(lines 201–205), in dict order. -/
def filled_this_pass (open_ids : List OrderId) (orders : Orders) : Orders :=
  orders.filter (is_filled_now open_ids)

/-- The database writes of the fill-detection loop (lines 211–226): for
each newly filled record, an order-status update with a fill timestamp
and a trade record with the order's price, quantity and side. -/
def mark_events (open_ids : List OrderId) (order_amount : ℚ) (now : ℕ)
    (orders : Orders) : List DbEvent :=
  (filled_this_pass open_ids orders).map (fun r =>
    [DbEvent.updateOrderStatusEv r.1 OrderStatus.filled now,
     DbEvent.addTradeEv r.2.side r.2.price order_amount]) |>.flatten

/-- Python dict assignment `d[k] = v`: replace in place if the key is
present, append otherwise. -/
def dict_insert (orders : Orders) (k : OrderId) (v : OrderInfo) : Orders :=
  if orders.any (fun r => r.1 = k) then
    orders.map fun r => if r.1 = k then (k, v) else r
  else orders ++ [(k, v)]

/-- Models `GridTradingStrategy._handle_filled_order` (lines 232–293):
find the adjacent level, place the opposite order there (`place_ok`
tells whether the gateway acknowledges it), and on success record it
active and persist it.  Returns the updated dict and the database
writes. -/
def handle_filled_order (grid_prices : List ℚ) (order_amount : ℚ)
    (place_ok : Side → ℚ → Bool) (now : ℕ) (orders : Orders)
    (filled : OrderInfo) : Orders × List DbEvent :=
  match find_next_grid_level grid_prices filled.price filled.side with
  | none => (orders, [])
  | some next_price =>
      let new_side := opposite filled.side
      let id := OrderId.rebalanceId new_side next_price now
      if place_ok new_side next_price then
        (dict_insert orders id
           { price := next_price, side := new_side, status := OrderStatus.active },
         [DbEvent.addOrderEv id new_side next_price order_amount
            OrderStatus.active])
      else (orders, [])

/-- One iteration of the rebalance loop of `check_and_rebalance`
(lines 229–230), threading the order dict and accumulating the database
writes. -/
def rebalance_step (grid_prices : List ℚ) (order_amount : ℚ)
    (place_ok : Side → ℚ → Bool) (now : ℕ) (acc : Orders × List DbEvent)
    (r : OrderId × OrderInfo) : Orders × List DbEvent :=
  let step := handle_filled_order grid_prices order_amount place_ok now acc.1 r.2
  (step.1, acc.2 ++ step.2)

/-- Models `GridTradingStrategy.check_and_rebalance` (lines 192–230): one
reconciliation pass.  `open_ids` is the exchange's open-order set
(`orderLinkId` values), `now` the pass timestamp.  Marks fills, persists
them, then runs `_handle_filled_order` for each newly filled record in
order. -/
def check_and_rebalance (grid_prices : List ℚ) (order_amount : ℚ)
    (place_ok : Side → ℚ → Bool) (now : ℕ) (open_ids : List OrderId)
    (orders : Orders) : Orders × List DbEvent :=
  (filled_this_pass open_ids orders).foldl
    (rebalance_step grid_prices order_amount place_ok now)
    (mark_filled open_ids orders, mark_events open_ids order_amount now orders)

/-- The counters of `GridTradingStrategy.get_status` (lines 328–355):
`(total_orders, active_buys, active_sells, filled_orders)`. -/
def get_status_counts (orders : Orders) : ℕ × ℕ × ℕ × ℕ :=
  (orders.length,
   (orders.filter fun r =>
      r.2.side = Side.Buy ∧ r.2.status = OrderStatus.active).length,
   (orders.filter fun r =>
      r.2.side = Side.Sell ∧ r.2.status = OrderStatus.active).length,
   (orders.filter fun r => r.2.status = OrderStatus.filled).length)

/-- Models `GridTradingStrategy.stop` (lines 357–362): cancels everything on
the gateway and clears the local record set. -/
def stop_orders (_orders : Orders) : Orders := []

/-! ## Rounding lemmas -/

lemma floor_le_roundHalfEven (q : ℚ) : ⌊q⌋ ≤ roundHalfEven q := by
  unfold roundHalfEven
  split_ifs <;> omega

lemma roundHalfEven_le_floor_add_one (q : ℚ) : roundHalfEven q ≤ ⌊q⌋ + 1 := by
  unfold roundHalfEven
  split_ifs <;> omega

lemma roundHalfEven_mono {a b : ℚ} (h : a ≤ b) : roundHalfEven a ≤ roundHalfEven b := by
  have hf : ⌊a⌋ ≤ ⌊b⌋ := Int.floor_mono h
  by_cases hlt : ⌊a⌋ < ⌊b⌋
  · calc roundHalfEven a ≤ ⌊a⌋ + 1 := roundHalfEven_le_floor_add_one a
      _ ≤ ⌊b⌋ := by omega
      _ ≤ roundHalfEven b := floor_le_roundHalfEven b
  · have heq : ⌊a⌋ = ⌊b⌋ := by omega
    unfold roundHalfEven
    rw [heq]
    split_ifs <;> first | omega | linarith

lemma roundHalfEven_intCast (n : ℤ) : roundHalfEven (n : ℚ) = n := by
  unfold roundHalfEven
  rw [Int.floor_intCast]
  norm_num

lemma round2_mono {a b : ℚ} (h : a ≤ b) : round2 a ≤ round2 b := by
  unfold round2
  have : roundHalfEven (100 * a) ≤ roundHalfEven (100 * b) :=
    roundHalfEven_mono (by linarith)
  have hc : ((roundHalfEven (100 * a) : ℚ)) ≤ (roundHalfEven (100 * b) : ℚ) := by
    exact_mod_cast this
  linarith

lemma round2_eq_int (q : ℚ) (n : ℤ) (h : q = (n : ℚ)) : round2 q = q := by
  subst h
  unfold round2
  have h1 : (100 : ℚ) * n = ((100 * n : ℤ) : ℚ) := by push_cast; ring
  rw [h1, roundHalfEven_intCast]
  push_cast
  ring

/-- Branch lemma used to evaluate `roundHalfEven` at concrete rationals
strictly below the half-way point. -/
lemma roundHalfEven_eq_of_lt_half (q : ℚ) (n : ℤ) (h1 : (n : ℚ) ≤ q)
    (h2 : q < (n : ℚ) + 1/2) : roundHalfEven q = n := by
  have hfl : ⌊q⌋ = n := Int.floor_eq_iff.mpr ⟨h1, by linarith⟩
  unfold roundHalfEven
  rw [hfl, if_pos (by linarith)]

/-- Branch lemma used to evaluate `roundHalfEven` at concrete rationals
strictly above the half-way point. -/
lemma roundHalfEven_eq_of_gt_half (q : ℚ) (n : ℤ) (h1 : (n : ℚ) + 1/2 < q)
    (h2 : q < (n : ℚ) + 1) : roundHalfEven q = n + 1 := by
  have h0 : (n : ℚ) ≤ q := by linarith
  have hfl : ⌊q⌋ = n := Int.floor_eq_iff.mpr ⟨h0, by linarith⟩
  unfold roundHalfEven
  rw [hfl, if_neg (by linarith), if_pos (by linarith)]

/-- Branch lemma used to evaluate `roundHalfEven` at an exact half-way
point with even integer part. -/
lemma roundHalfEven_eq_of_tie_even (q : ℚ) (n : ℤ) (h : q = (n : ℚ) + 1/2)
    (he : n % 2 = 0) : roundHalfEven q = n := by
  have hfl : ⌊q⌋ = n := Int.floor_eq_iff.mpr ⟨by linarith, by linarith⟩
  unfold roundHalfEven
  rw [hfl, if_neg (by linarith), if_neg (by linarith),
    if_pos he]

/-- Unconditional evaluation form of `calculate_grid_prices` away from
the `ZeroDivisionError` case. -/
lemma calculate_grid_prices_eval (grid_levels : ℕ) (lo up : ℚ)
    (h : grid_levels ≠ 1) :
    calculate_grid_prices grid_levels lo up =
      some ((List.range grid_levels).map fun i : ℕ =>
        round2 (lo + (up - lo) / ((grid_levels : ℚ) - 1) * (i : ℚ))) := by
  simp [calculate_grid_prices, h]

/-! ## Index and minimum lemmas -/

lemma rat_index_eq_none_iff (l : List ℚ) (p : ℚ) :
    rat_index l p = none ↔ p ∉ l := by
  induction l with
  | nil => simp [rat_index]
  | cons q rest ih =>
    by_cases h : q = p
    · simp [rat_index, h]
    · simp [rat_index, h, Option.map_eq_none', ih, Ne.symm h]

lemma rat_index_cons (q p : ℚ) (rest : List ℚ) :
    rat_index (q :: rest) p =
      if q = p then some 0 else (rat_index rest p).map (· + 1) := rfl

lemma rat_index_get (l : List ℚ) (hnd : l.Nodup) (i : ℕ) (hi : i < l.length) :
    rat_index l (l.get ⟨i, hi⟩) = some i := by
  induction l generalizing i with
  | nil => simp at hi
  | cons q rest ih =>
    rcases List.nodup_cons.mp hnd with ⟨hq, hrest⟩
    match i with
    | 0 => simp [rat_index]
    | n + 1 =>
      have hn : n < rest.length := by simpa using hi
      have hne : q ≠ rest.get ⟨n, hn⟩ := fun he => hq (he ▸ rest.get_mem n hn)
      have hgs : (q :: rest).get ⟨n + 1, hi⟩ = rest.get ⟨n, hn⟩ := rfl
      rw [hgs, rat_index_cons, if_neg hne, ih hrest n hn]
      rfl

lemma rat_index_spec (l : List ℚ) (v : ℚ) (j : ℕ)
    (h : rat_index l v = some j) :
    ∃ hj : j < l.length, l.get ⟨j, hj⟩ = v ∧
      ∀ k (hk : k < j), l.get ⟨k, Nat.lt_trans hk hj⟩ ≠ v := by
  induction l generalizing j with
  | nil => simp [rat_index] at h
  | cons q rest ih =>
    by_cases hq : q = v
    · simp only [rat_index, if_pos hq] at h
      obtain rfl : j = 0 := by simpa using h.symm
      exact ⟨by simp, hq, fun k hk => by omega⟩
    · simp only [rat_index, if_neg hq] at h
      obtain ⟨j', hj', rfl⟩ := Option.map_eq_some'.mp h
      obtain ⟨hlt, hget, hfirst⟩ := ih j' hj'
      refine ⟨by simpa using hlt, by simpa using hget, ?_⟩
      intro k hk
      match k with
      | 0 => simpa using hq
      | m + 1 =>
        have hm : m < j' := by omega
        simpa using hfirst m hm

lemma rat_index_of_mem (l : List ℚ) (v : ℚ) (h : v ∈ l) :
    ∃ j, rat_index l v = some j := by
  induction l with
  | nil => simp at h
  | cons q rest ih =>
    by_cases hq : q = v
    · exact ⟨0, by simp [rat_index, hq]⟩
    · have hv : v ∈ rest := by
        rcases List.mem_cons.mp h with h' | h'
        · exact absurd h'.symm hq
        · exact h'
      obtain ⟨j, hj⟩ := ih hv
      exact ⟨j + 1, by simp [rat_index, hq, hj]⟩

lemma foldl_min_le_init (rest : List ℚ) (x : ℚ) : rest.foldl min x ≤ x := by
  induction rest generalizing x with
  | nil => simp
  | cons a as ih =>
    calc as.foldl min (min x a) ≤ min x a := ih (min x a)
      _ ≤ x := min_le_left x a

lemma foldl_min_le_mem (rest : List ℚ) (x y : ℚ) (hy : y ∈ rest) :
    rest.foldl min x ≤ y := by
  induction rest generalizing x with
  | nil => simp at hy
  | cons a as ih =>
    rcases List.mem_cons.mp hy with rfl | hy'
    · calc as.foldl min (min x y) ≤ min x y := foldl_min_le_init as (min x y)
        _ ≤ y := min_le_right x y
    · exact ih (min x a) hy'

lemma foldl_min_mem (rest : List ℚ) (x : ℚ) :
    rest.foldl min x = x ∨ rest.foldl min x ∈ rest := by
  induction rest generalizing x with
  | nil => simp
  | cons a as ih =>
    rcases ih (min x a) with h | h
    · rcases min_choice x a with hc | hc
      · exact Or.inl (by rw [List.foldl_cons, h, hc])
      · exact Or.inr (by rw [List.foldl_cons, h, hc]; exact List.mem_cons_self a as)
    · exact Or.inr (List.mem_cons_of_mem a h)

lemma list_min_le (l : List ℚ) (y : ℚ) (hy : y ∈ l) : list_min l ≤ y := by
  match l with
  | [] => simp at hy
  | x :: rest =>
    rcases List.mem_cons.mp hy with rfl | hy'
    · exact foldl_min_le_init rest y
    · exact foldl_min_le_mem rest x y hy'

lemma list_min_mem (l : List ℚ) (h : l ≠ []) : list_min l ∈ l := by
  match l with
  | x :: rest =>
    show rest.foldl min x ∈ x :: rest
    rcases foldl_min_mem rest x with h' | h'
    · rw [h']
      exact List.mem_cons_self x rest
    · exact List.mem_cons_of_mem x h'

lemma nearest_index_spec (grid : List ℚ) (price : ℚ) (hne : grid ≠ []) :
    ∃ hj : nearest_index grid price < grid.length,
      (∀ k (hk : k < grid.length),
        |grid.get ⟨nearest_index grid price, hj⟩ - price| ≤
          |grid.get ⟨k, hk⟩ - price|) ∧
      (∀ k (hk : k < nearest_index grid price),
        |grid.get ⟨nearest_index grid price, hj⟩ - price| <
          |grid.get ⟨k, Nat.lt_trans hk hj⟩ - price|) := by
  have hdne : grid.map (fun p => |p - price|) ≠ [] := by
    simpa using hne
  have hmem := list_min_mem _ hdne
  obtain ⟨j, hj⟩ := rat_index_of_mem _ _ hmem
  obtain ⟨hjlen, hget, hfirst⟩ := rat_index_spec _ _ j hj
  have hidx : nearest_index grid price = j := by
    simp [nearest_index, hj]
  have hjg : j < grid.length := by simpa using hjlen
  have hgetg : |grid.get ⟨j, hjg⟩ - price| = list_min (grid.map fun p => |p - price|) := by
    have := hget
    rwa [List.get_map] at this
  rw [hidx]
  refine ⟨hjg, ?_, ?_⟩
  · intro k hk
    rw [hgetg]
    exact list_min_le _ _ (List.mem_map_of_mem _ (grid.get_mem k hk))
  · intro k hk
    have hkg : k < grid.length := Nat.lt_trans hk hjg
    have hne' : |grid.get ⟨k, hkg⟩ - price| ≠ list_min (grid.map fun p => |p - price|) := by
      have := hfirst k hk
      rwa [List.get_map] at this
    have hle : list_min (grid.map fun p => |p - price|) ≤ |grid.get ⟨k, hkg⟩ - price| :=
      list_min_le _ _ (List.mem_map_of_mem _ (grid.get_mem k hkg))
    rw [hgetg]
    exact lt_of_le_of_ne hle (Ne.symm hne')

lemma grid_index_get (grid : List ℚ) (hnd : grid.Nodup) (i : ℕ)
    (hi : i < grid.length) : grid_index grid (grid.get ⟨i, hi⟩) = i := by
  unfold grid_index
  rw [rat_index_get grid hnd i hi]

lemma round2_hundred : round2 100 = 100 := round2_eq_int 100 100 (by norm_num)

lemma round2_125 : round2 125 = 125 := round2_eq_int 125 125 (by norm_num)

lemma round2_150 : round2 150 = 150 := round2_eq_int 150 150 (by norm_num)

lemma round2_175 : round2 175 = 175 := round2_eq_int 175 175 (by norm_num)

lemma round2_200 : round2 200 = 200 := round2_eq_int 200 200 (by norm_num)

/-! ## Claim theorems -/

/-- C3: `computeLevels` is the pure linear-spacing function: for a
configuration with `L ≥ 2` levels and bounds `lower < upper` it returns
`price[i] = lower + i * (upper - lower) / (L - 1)` for `i = 0..L-1`,
each rounded to two decimal places, and in particular for `levels = 5`,
`lower = 100`, `upper = 200` it returns exactly
`[100, 125, 150, 175, 200]`. -/
theorem computeLevels_linear_spacing (grid_levels : ℕ) (lower_price upper_price : ℚ)
    (h2 : 2 ≤ grid_levels) (hlt : lower_price < upper_price) :
    calculate_grid_prices grid_levels lower_price upper_price =
      some ((List.range grid_levels).map fun i : ℕ =>
        round2 (lower_price +
          (i : ℚ) * (upper_price - lower_price) / ((grid_levels : ℚ) - 1)))
    ∧ calculate_grid_prices 5 100 200 = some [100, 125, 150, 175, 200] := by
  constructor
  · rw [calculate_grid_prices_eval grid_levels lower_price upper_price (by omega)]
    refine congrArg some (List.map_congr_left fun i _ => ?_)
    congr 1
    ring
  · rw [calculate_grid_prices_eval 5 100 200 (by omega),
      show List.range 5 = [0, 1, 2, 3, 4] from rfl]
    have e0 : (100 : ℚ) + (200 - 100) / (((5:ℕ) : ℚ) - 1) * ((0:ℕ) : ℚ) = 100 := by
      norm_num
    have e1 : (100 : ℚ) + (200 - 100) / (((5:ℕ) : ℚ) - 1) * ((1:ℕ) : ℚ) = 125 := by
      norm_num
    have e2 : (100 : ℚ) + (200 - 100) / (((5:ℕ) : ℚ) - 1) * ((2:ℕ) : ℚ) = 150 := by
      norm_num
    have e3 : (100 : ℚ) + (200 - 100) / (((5:ℕ) : ℚ) - 1) * ((3:ℕ) : ℚ) = 175 := by
      norm_num
    have e4 : (100 : ℚ) + (200 - 100) / (((5:ℕ) : ℚ) - 1) * ((4:ℕ) : ℚ) = 200 := by
      norm_num
    simp only [List.map_cons, List.map_nil]
    rw [e0, e1, e2, e3, e4, round2_hundred, round2_125, round2_150, round2_175,
      round2_200]

/-- C3 witness: the theorem instantiated at the concrete configuration
`levels = 5`, `lower = 100`, `upper = 200`. -/
theorem computeLevels_linear_spacing_witness :
    calculate_grid_prices 5 100 200 = some [100, 125, 150, 175, 200] :=
  (computeLevels_linear_spacing 5 100 200 (by omega) (by norm_num)).2

/-- C4 counterexample: the claim says `computeLevels` fails whenever
`lower ≥ upper`, but at `levels = 2`, `lower = 200`, `upper = 100`
(where indeed `lower ≥ upper`) the computation succeeds and returns the
decreasing list `[200, 100]` — no validation happens there. -/
theorem computeLevels_no_range_validation :
    (100 : ℚ) ≤ 200 ∧
      calculate_grid_prices 2 200 100 = some [200, 100] := by
  refine ⟨by norm_num, ?_⟩
  rw [calculate_grid_prices_eval 2 200 100 (by omega),
    show List.range 2 = [0, 1] from rfl]
  have e0 : (200 : ℚ) + (100 - 200) / (((2:ℕ) : ℚ) - 1) * ((0:ℕ) : ℚ) = 200 := by
    norm_num
  have e1 : (200 : ℚ) + (100 - 200) / (((2:ℕ) : ℚ) - 1) * ((1:ℕ) : ℚ) = 100 := by
    norm_num
  simp only [List.map_cons, List.map_nil]
  rw [e0, e1, round2_hundred, round2_200]

/-- C4 amended: the grid-price computation itself performs no range
validation: it fails only when the level count is exactly `1` (Python's
`ZeroDivisionError` on `levels - 1`), and succeeds for every other level
count and any bounds; the constraints `levels ≥ 2`, `lower < upper` (and
`order size > 0`) are enforced by the supervisor's `configure` instead,
which accepts a configuration exactly when they all hold. -/
theorem computeLevels_failure_characterization :
    (∀ (grid_levels : ℕ) (lo up : ℚ),
        calculate_grid_prices grid_levels lo up = none ↔ grid_levels = 1)
    ∧ (∀ (grid_levels : ℤ) (lo up amt : ℚ),
        configure_accepts grid_levels lo up amt = true ↔
          (lo < up ∧ 2 ≤ grid_levels ∧ 0 < amt)) := by
  constructor
  · intro grid_levels lo up
    by_cases h : grid_levels = 1 <;> simp [calculate_grid_prices, h]
  · intro grid_levels lo up amt
    simp [configure_accepts, not_le, not_lt, and_assoc]

/-- C1: a filled Buy at grid index `i` spawns a replacement Sell at
index `i + 1`, a filled Sell at index `i` spawns a replacement Buy at
index `i - 1`, and when the filled order sits at the topmost level (Buy
fill) or bottommost level (Sell fill), `_handle_filled_order` places no
replacement at all and leaves the order set untouched. -/
theorem replacement_adjacent_level (grid : List ℚ) (hnd : grid.Nodup)
    (i : ℕ) (hi : i < grid.length) :
    (replacement_order grid Side.Buy (grid.get ⟨i, hi⟩) =
      if h : i + 1 < grid.length then some (Side.Sell, grid.get ⟨i + 1, h⟩)
      else none)
    ∧ (replacement_order grid Side.Sell (grid.get ⟨i, hi⟩) =
      if 0 < i then some (Side.Buy, grid.get ⟨i - 1, by omega⟩)
      else none)
    ∧ (∀ (qty : ℚ) (place_ok : Side → ℚ → Bool) (now : ℕ) (orders : Orders),
        i = grid.length - 1 →
        handle_filled_order grid qty place_ok now orders
          { price := grid.get ⟨i, hi⟩, side := Side.Buy,
            status := OrderStatus.filled } = (orders, []))
    ∧ (∀ (qty : ℚ) (place_ok : Side → ℚ → Bool) (now : ℕ) (orders : Orders),
        i = 0 →
        handle_filled_order grid qty place_ok now orders
          { price := grid.get ⟨i, hi⟩, side := Side.Sell,
            status := OrderStatus.filled } = (orders, [])) := by
  have hidx := grid_index_get grid hnd i hi
  have feb : find_next_grid_level grid (grid.get ⟨i, hi⟩) Side.Buy =
      if grid_index grid (grid.get ⟨i, hi⟩) < grid.length - 1 then
        grid[grid_index grid (grid.get ⟨i, hi⟩) + 1]? else none := rfl
  have fes : find_next_grid_level grid (grid.get ⟨i, hi⟩) Side.Sell =
      if 0 < grid_index grid (grid.get ⟨i, hi⟩) then
        grid[grid_index grid (grid.get ⟨i, hi⟩) - 1]? else none := rfl
  have hbuy : find_next_grid_level grid (grid.get ⟨i, hi⟩) Side.Buy =
      if h : i + 1 < grid.length then some (grid.get ⟨i + 1, h⟩) else none := by
    rw [feb]
    simp only [hidx]
    by_cases h : i + 1 < grid.length
    · rw [if_pos (by omega), dif_pos h, List.getElem?_eq_getElem h]
      rfl
    · rw [if_neg (by omega), dif_neg h]
  have hsell : find_next_grid_level grid (grid.get ⟨i, hi⟩) Side.Sell =
      if 0 < i then some (grid.get ⟨i - 1, by omega⟩) else none := by
    rw [fes]
    simp only [hidx]
    by_cases h : 0 < i
    · rw [if_pos h, if_pos h, List.getElem?_eq_getElem (by omega)]
      rfl
    · rw [if_neg h, if_neg h]
  refine ⟨?_, ?_, ?_, ?_⟩
  · unfold replacement_order
    rw [hbuy]
    by_cases h : i + 1 < grid.length
    · rw [dif_pos h, dif_pos h]
      rfl
    · rw [dif_neg h, dif_neg h]
      rfl
  · unfold replacement_order
    rw [hsell]
    by_cases h : 0 < i
    · rw [if_pos h, if_pos h]
      rfl
    · rw [if_neg h, if_neg h]
      rfl
  · intro qty place_ok now orders htop
    unfold handle_filled_order
    have : find_next_grid_level grid (grid.get ⟨i, hi⟩) Side.Buy = none := by
      rw [hbuy, dif_neg (by omega)]
    rw [this]
  · intro qty place_ok now orders hbot
    unfold handle_filled_order
    have : find_next_grid_level grid (grid.get ⟨i, hi⟩) Side.Sell = none := by
      rw [hsell, if_neg (by omega)]
    rw [this]

/-- C1 witness: on the grid `[100, 125, 150, 175, 200]`, a Buy fill at
`125` (index 1) spawns a Sell at `150`, and a Sell fill at `200` (index
4, topmost) spawns a Buy at `175`. -/
theorem replacement_adjacent_level_witness :
    replacement_order [100, 125, 150, 175, 200] Side.Buy 125 =
      some (Side.Sell, 150)
    ∧ replacement_order [100, 125, 150, 175, 200] Side.Sell 200 =
      some (Side.Buy, 175) := by
  constructor
  · have h := (replacement_adjacent_level [100, 125, 150, 175, 200]
      (by norm_num) 1 (by norm_num)).1
    simpa using h
  · have h := (replacement_adjacent_level [100, 125, 150, 175, 200]
      (by norm_num) 4 (by norm_num)).2.1
    simpa using h

/-- C9: when the filled price matches no grid level, the replacement
computation falls back to the nearest-level scan: the selected index
attains the minimum absolute distance to the filled price, and every
earlier index has a strictly larger distance, so ties resolve
deterministically to the lower index (the lower price). -/
theorem nearest_level_tie_break (grid : List ℚ) (price : ℚ)
    (hne : grid ≠ []) (hnm : price ∉ grid) :
    grid_index grid price = nearest_index grid price
    ∧ ∃ hj : nearest_index grid price < grid.length,
      (∀ k (hk : k < grid.length),
        |grid.get ⟨nearest_index grid price, hj⟩ - price| ≤
          |grid.get ⟨k, hk⟩ - price|)
      ∧ (∀ k (hk : k < nearest_index grid price),
        |grid.get ⟨nearest_index grid price, hj⟩ - price| <
          |grid.get ⟨k, Nat.lt_trans hk hj⟩ - price|) := by
  refine ⟨?_, nearest_index_spec grid price hne⟩
  unfold grid_index
  rw [(rat_index_eq_none_iff grid price).mpr hnm]

/-- C9 witness: on the grid `[100, 125, 150]` with filled price `137.5`
(not a level, equidistant from `125` and `150`), the scan picks index 1,
the lower-priced of the two tied levels. -/
theorem nearest_level_tie_break_witness :
    ((275 : ℚ) / 2) ∉ ([100, 125, 150] : List ℚ)
    ∧ grid_index [100, 125, 150] (275 / 2) = nearest_index [100, 125, 150] (275 / 2)
    ∧ nearest_index [100, 125, 150] (275 / 2) = 1 := by
  have hnm : ((275 : ℚ) / 2) ∉ ([100, 125, 150] : List ℚ) := by
    intro h
    simp only [List.mem_cons, List.not_mem_nil, or_false] at h
    rcases h with h | h | h <;> norm_num at h
  have h := nearest_level_tie_break [100, 125, 150] (275 / 2) (by simp) hnm
  refine ⟨hnm, h.1, ?_⟩
  have d0 : |(100 : ℚ) - 275 / 2| = 75 / 2 := by rw [abs_of_nonpos] <;> norm_num
  have d1 : |(125 : ℚ) - 275 / 2| = 25 / 2 := by rw [abs_of_nonpos] <;> norm_num
  have d2 : |(150 : ℚ) - 275 / 2| = 25 / 2 := by rw [abs_of_nonneg] <;> norm_num
  have hd : ([100, 125, 150] : List ℚ).map (fun p => |p - 275 / 2|) =
      [75 / 2, 25 / 2, 25 / 2] := by
    simp only [List.map_cons, List.map_nil, d0, d1, d2]
  have hm : list_min [(75 : ℚ) / 2, 25 / 2, 25 / 2] = 25 / 2 := by
    show min (min ((75 : ℚ) / 2) (25 / 2)) (25 / 2) = 25 / 2
    rw [min_eq_right (by norm_num : (25 : ℚ) / 2 ≤ 75 / 2)]
    exact min_self _
  have hr : rat_index [(75 : ℚ) / 2, 25 / 2, 25 / 2] (25 / 2) = some 1 := by
    rw [rat_index_cons, if_neg (by norm_num), rat_index_cons, if_pos rfl]
    rfl
  unfold nearest_index
  rw [hd]
  show (rat_index [(75 : ℚ) / 2, 25 / 2, 25 / 2]
    (list_min [(75 : ℚ) / 2, 25 / 2, 25 / 2])).getD 0 = 1
  rw [hm, hr]
  rfl

/-- Evaluation helper: `round2` through a computed `roundHalfEven`. -/
lemma round2_eval (q : ℚ) (n : ℤ) (h : roundHalfEven (100 * q) = n) :
    round2 q = (n : ℚ) / 100 := by
  unfold round2
  rw [h]

/-- C5 counterexample: the claim says the computed level sequence is
strictly increasing for every configuration `configure` accepts, but the
accepted configuration `levels = 5`, `lower = 100`, `upper = 100.01`
(spacing `0.0025 < 0.005`) yields rounded prices
`[100, 100, 100, 100.01, 100.01]`, which is not strictly increasing. -/
theorem grid_prices_not_strictly_increasing :
    configure_accepts 5 100 (10001 / 100) 1 = true
    ∧ calculate_grid_prices 5 100 (10001 / 100) =
        some [100, 100, 100, 10001 / 100, 10001 / 100]
    ∧ ¬ ([100, 100, 100, (10001 : ℚ) / 100, 10001 / 100].Pairwise (· < ·)) := by
  refine ⟨by norm_num [configure_accepts], ?_, ?_⟩
  · rw [calculate_grid_prices_eval 5 100 (10001 / 100) (by omega),
      show List.range 5 = [0, 1, 2, 3, 4] from rfl]
    have e0 : (100 : ℚ) + (10001 / 100 - 100) / (((5:ℕ) : ℚ) - 1) * ((0:ℕ) : ℚ)
        = 100 := by norm_num
    have e1 : (100 : ℚ) + (10001 / 100 - 100) / (((5:ℕ) : ℚ) - 1) * ((1:ℕ) : ℚ)
        = 40001 / 400 := by norm_num
    have e2 : (100 : ℚ) + (10001 / 100 - 100) / (((5:ℕ) : ℚ) - 1) * ((2:ℕ) : ℚ)
        = 20001 / 200 := by norm_num
    have e3 : (100 : ℚ) + (10001 / 100 - 100) / (((5:ℕ) : ℚ) - 1) * ((3:ℕ) : ℚ)
        = 40003 / 400 := by norm_num
    have e4 : (100 : ℚ) + (10001 / 100 - 100) / (((5:ℕ) : ℚ) - 1) * ((4:ℕ) : ℚ)
        = 10001 / 100 := by norm_num
    have r1 : round2 (40001 / 400) = 100 := by
      have hr : roundHalfEven ((100 : ℚ) * (40001 / 400)) = 10000 := by
        rw [show (100 : ℚ) * (40001 / 400) = 40001 / 4 by norm_num]
        exact roundHalfEven_eq_of_lt_half _ 10000 (by norm_num) (by norm_num)
      rw [round2_eval _ _ hr]
      norm_num
    have r2 : round2 (20001 / 200) = 100 := by
      have hr : roundHalfEven ((100 : ℚ) * (20001 / 200)) = 10000 := by
        rw [show (100 : ℚ) * (20001 / 200) = 20001 / 2 by norm_num]
        exact roundHalfEven_eq_of_tie_even _ 10000 (by norm_num) (by decide)
      rw [round2_eval _ _ hr]
      norm_num
    have r3 : round2 (40003 / 400) = 10001 / 100 := by
      have hr : roundHalfEven ((100 : ℚ) * (40003 / 400)) = 10001 := by
        rw [show (100 : ℚ) * (40003 / 400) = 40003 / 4 by norm_num]
        rw [show ((10001 : ℤ)) = 10000 + 1 by norm_num]
        exact roundHalfEven_eq_of_gt_half _ 10000 (by norm_num) (by norm_num)
      rw [round2_eval _ _ hr]
      norm_num
    have r4 : round2 (10001 / 100) = 10001 / 100 := by
      have hr : roundHalfEven ((100 : ℚ) * (10001 / 100)) = 10001 := by
        rw [show (100 : ℚ) * (10001 / 100) = ((10001 : ℤ) : ℚ) by norm_num]
        exact roundHalfEven_intCast 10001
      rw [round2_eval _ _ hr]
      norm_num
    simp only [List.map_cons, List.map_nil]
    rw [e0, e1, e2, e3, e4, round2_hundred, r1, r2, r3, r4]
  · intro h
    rcases List.pairwise_cons.mp h with ⟨h1, _⟩
    exact lt_irrefl (100 : ℚ) (h1 100 (List.mem_cons_self _ _))

/-- C5 amended: for every configuration `configure` accepts the computed
level sequence is sorted ascending (monotone non-decreasing), and the
unrounded linear-spacing sequence is strictly increasing; but adjacent
rounded prices can coincide when the spacing is below half the rounding
precision, so strict increase holds only before rounding.  The sequence
is computed once at engine construction and only ever read afterwards. -/
theorem grid_prices_sorted (grid_levels : ℕ) (lower_price upper_price : ℚ)
    (h2 : 2 ≤ grid_levels) (hlt : lower_price < upper_price) :
    ∃ l, calculate_grid_prices grid_levels lower_price upper_price = some l
      ∧ l.Pairwise (· ≤ ·)
      ∧ ((List.range grid_levels).map fun i : ℕ =>
          lower_price + (upper_price - lower_price) /
            ((grid_levels : ℚ) - 1) * (i : ℚ)).Pairwise (· < ·) := by
  have hs : 0 < (upper_price - lower_price) / ((grid_levels : ℚ) - 1) := by
    apply div_pos (by linarith)
    have : (2 : ℚ) ≤ (grid_levels : ℚ) := by exact_mod_cast h2
    linarith
  have hmono : ∀ a b : ℕ, a < b →
      lower_price + (upper_price - lower_price) / ((grid_levels : ℚ) - 1) * (a : ℚ) <
        lower_price + (upper_price - lower_price) / ((grid_levels : ℚ) - 1) * (b : ℚ) := by
    intro a b hab
    have hc : (a : ℚ) < (b : ℚ) := by exact_mod_cast hab
    nlinarith
  refine ⟨_, calculate_grid_prices_eval grid_levels lower_price upper_price
    (by omega), ?_, ?_⟩
  · exact List.Pairwise.map _
      (fun a b hab => round2_mono (le_of_lt (hmono a b hab)))
      (List.pairwise_lt_range grid_levels)
  · exact List.Pairwise.map _ (fun a b hab => hmono a b hab)
      (List.pairwise_lt_range grid_levels)

/-- C5 amended witness: the sorted-ascending property at the concrete
configuration `levels = 5`, `lower = 100`, `upper = 200`. -/
theorem grid_prices_sorted_witness :
    ∃ l, calculate_grid_prices 5 100 200 = some l
      ∧ l.Pairwise (· ≤ ·)
      ∧ ((List.range 5).map fun i : ℕ =>
          100 + (200 - 100) / (((5 : ℕ) : ℚ) - 1) * (i : ℚ)).Pairwise (· < ·) :=
  grid_prices_sorted 5 100 200 (by omega) (by norm_num)

/-- C8: `start` replaces an out-of-range active range with
`[round(price·0.95, 2), round(price·1.05, 2)]` (stored in the in-memory
configuration, reported in the success message, and persisted — all
three read the same adjusted pair), leaves an in-range configuration
unchanged, and at current price `230` with configured range `[100, 200]`
produces exactly `[218.5, 241.5]`. -/
theorem start_range_adjustment (current_price grid_lower grid_upper : ℚ) :
    (current_price < grid_lower ∨ grid_upper < current_price →
      adjust_range current_price grid_lower grid_upper =
        { grid_lower := round2 (current_price * (1 - 1/20)),
          grid_upper := round2 (current_price * (1 + 1/20)),
          auto_adjusted := true })
    ∧ (grid_lower ≤ current_price ∧ current_price ≤ grid_upper →
      adjust_range current_price grid_lower grid_upper =
        { grid_lower := grid_lower, grid_upper := grid_upper,
          auto_adjusted := false })
    ∧ adjust_range 230 100 200 =
        { grid_lower := 437/2, grid_upper := 483/2, auto_adjusted := true } := by
  refine ⟨?_, ?_, ?_⟩
  · intro h
    unfold adjust_range
    rw [if_pos h]
  · intro h
    unfold adjust_range
    rw [if_neg (by push_neg; constructor <;> [linarith; linarith])]
  · unfold adjust_range
    rw [if_pos (Or.inr (by norm_num))]
    have rlo : round2 ((230 : ℚ) * (1 - 1/20)) = 437/2 := by
      have hr : roundHalfEven ((100 : ℚ) * ((230 : ℚ) * (1 - 1/20))) = 21850 := by
        rw [show (100 : ℚ) * ((230 : ℚ) * (1 - 1/20)) = ((21850 : ℤ) : ℚ) by norm_num]
        exact roundHalfEven_intCast 21850
      rw [round2_eval _ _ hr]
      norm_num
    have rhi : round2 ((230 : ℚ) * (1 + 1/20)) = 483/2 := by
      have hr : roundHalfEven ((100 : ℚ) * ((230 : ℚ) * (1 + 1/20))) = 24150 := by
        rw [show (100 : ℚ) * ((230 : ℚ) * (1 + 1/20)) = ((24150 : ℤ) : ℚ) by norm_num]
        exact roundHalfEven_intCast 24150
      rw [round2_eval _ _ hr]
      norm_num
    rw [rlo, rhi]

/-- C8 witness: the adjustment branch applied at current price `230`
with configured range `[100, 200]`. -/
theorem start_range_adjustment_witness :
    adjust_range 230 100 200 =
      { grid_lower := round2 (230 * (1 - 1/20)),
        grid_upper := round2 (230 * (1 + 1/20)), auto_adjusted := true } :=
  (start_range_adjustment 230 100 200).1 (Or.inr (by norm_num))

lemma init_placements_cons (q cp : ℚ) (rest : List ℚ) :
    init_placements (q :: rest) cp =
      (if q < cp then [(Side.Buy, q)]
       else if cp < q then [(Side.Sell, q)] else [])
        ++ init_placements rest cp := by
  unfold init_placements
  rw [List.filterMap_cons]
  by_cases h1 : q < cp
  · simp [h1]
  · by_cases h2 : cp < q
    · simp [h1, h2]
    · simp [h1, h2]

lemma init_placements_count (grid : List ℚ) (cp : ℚ) (hnd : grid.Nodup)
    (s : Side) (p : ℚ) :
    (init_placements grid cp).count (s, p) =
      if p ∈ grid ∧ ((s = Side.Buy ∧ p < cp) ∨ (s = Side.Sell ∧ cp < p))
      then 1 else 0 := by
  induction grid with
  | nil => simp [init_placements]
  | cons q rest ih =>
    rcases List.nodup_cons.mp hnd with ⟨hq, hrest⟩
    rw [init_placements_cons, List.count_append, ih hrest]
    by_cases hpq : p = q
    · subst hpq
      have hnr : p ∉ rest := hq
      simp only [hnr, false_and, if_false, List.mem_cons, true_or, true_and]
      by_cases h1 : p < cp
      · rcases s with _ | _
        · simp [h1, not_lt_of_lt h1]
        · simp [h1, not_lt_of_lt h1]
      · by_cases h2 : cp < p
        · rcases s with _ | _
          · simp [h1, h2]
          · simp [h1, h2]
        · rcases s with _ | _
          · simp [h1, h2]
          · simp [h1, h2]
    · have hz : ((if q < cp then [(Side.Buy, q)]
          else if cp < q then [(Side.Sell, q)] else []) : List (Side × ℚ)).count
            (s, p) = 0 := by
        by_cases h1 : q < cp
        · simp [h1, List.count_singleton, Ne.symm hpq, Prod.ext_iff]
        · by_cases h2 : cp < q
          · simp [h1, h2, List.count_singleton, Ne.symm hpq, Prod.ext_iff]
          · simp [h1, h2]
      rw [hz, Nat.zero_add]
      have hcond : (p ∈ q :: rest) ↔ p ∈ rest := by
        simp [List.mem_cons, hpq]
      exact (if_congr (and_congr_left' hcond) rfl rfl).symm

/-- C6: given a successfully fetched current price, initialization
places exactly one Buy limit order at every grid level strictly below
the current price, exactly one Sell at every level strictly above it,
and no order at a level equal to it; with current price `150` and levels
`[100, 125, 150, 175, 200]` this is exactly two Buys (`100`, `125`) and
two Sells (`175`, `200`). -/
theorem initial_orders_around_price (grid_prices : List ℚ)
    (current_price : ℚ) (hnd : grid_prices.Nodup) :
    (∀ (s : Side) (p : ℚ),
      (init_placements grid_prices current_price).count (s, p) =
        if p ∈ grid_prices ∧
            ((s = Side.Buy ∧ p < current_price)
              ∨ (s = Side.Sell ∧ current_price < p))
        then 1 else 0)
    ∧ init_placements [100, 125, 150, 175, 200] 150 =
        [(Side.Buy, 100), (Side.Buy, 125), (Side.Sell, 175), (Side.Sell, 200)] := by
  refine ⟨fun s p => init_placements_count grid_prices current_price hnd s p, ?_⟩
  decide

/-- C6 witness: the count characterization instantiated on the concrete
grid `[100, 125, 150, 175, 200]` at current price `150`, checked at the
level `125` (one Buy) and at the level `150` (no order). -/
theorem initial_orders_around_price_witness :
    (init_placements [100, 125, 150, 175, 200] 150).count (Side.Buy, 125) = 1
    ∧ (init_placements [100, 125, 150, 175, 200] 150).count (Side.Buy, 150) = 0
    ∧ (init_placements [100, 125, 150, 175, 200] 150).count (Side.Sell, 150) = 0 := by
  have h := (initial_orders_around_price [100, 125, 150, 175, 200] 150
    (by decide)).1
  refine ⟨?_, ?_, ?_⟩
  · rw [h Side.Buy 125]
    decide
  · rw [h Side.Buy 150]
    decide
  · rw [h Side.Sell 150]
    decide

/-! ## Reconciliation-pass lemmas -/

/-- Records whose id was generated during the pass stamped `now`, with
the value `_handle_filled_order` stores for them. -/
def pass_entry (now : ℕ) (r : OrderId × OrderInfo) : Prop :=
  ∃ s q, r = (OrderId.rebalanceId s q now,
    { price := q, side := s, status := OrderStatus.active })

lemma is_filled_now_iff (open_ids : List OrderId) (r : OrderId × OrderInfo) :
    is_filled_now open_ids r = true ↔
      (r.2.status = OrderStatus.active ∧ r.1 ∉ open_ids) := by
  simp [is_filled_now, and_comm]

lemma mark_filled_mem (open_ids : List OrderId) {orders : Orders}
    {r : OrderId × OrderInfo} (hr : r ∈ orders) :
    (if is_filled_now open_ids r then
      (r.1, { r.2 with status := OrderStatus.filled }) else r)
      ∈ mark_filled open_ids orders :=
  List.mem_map_of_mem _ hr

lemma mark_filled_src {open_ids : List OrderId} {orders : Orders}
    {r' : OrderId × OrderInfo} (h : r' ∈ mark_filled open_ids orders) :
    ∃ r ∈ orders, r' = if is_filled_now open_ids r then
      (r.1, { r.2 with status := OrderStatus.filled }) else r := by
  rcases List.mem_map.mp h with ⟨r, hr, he⟩
  exact ⟨r, hr, he.symm⟩

lemma mark_filled_length (open_ids : List OrderId) (orders : Orders) :
    (mark_filled open_ids orders).length = orders.length := by
  simp [mark_filled]

lemma dict_insert_length (l : Orders) (k : OrderId) (v : OrderInfo) :
    l.length ≤ (dict_insert l k v).length := by
  unfold dict_insert
  split_ifs <;> simp

lemma dict_insert_mem_of_ne {l : Orders} {k : OrderId} {v : OrderInfo}
    {r : OrderId × OrderInfo} (hr : r ∈ l) (hk : r.1 ≠ k) :
    r ∈ dict_insert l k v := by
  unfold dict_insert
  split_ifs
  · have h := List.mem_map_of_mem (fun r => if r.1 = k then (k, v) else r) hr
    simpa [hk] using h
  · exact List.mem_append_left _ hr

lemma dict_insert_mem_of_eq_val {l : Orders} {k : OrderId} {v : OrderInfo}
    (hr : (k, v) ∈ l) : (k, v) ∈ dict_insert l k v := by
  unfold dict_insert
  split_ifs
  · have h := List.mem_map_of_mem (fun r => if r.1 = k then (k, v) else r) hr
    simpa using h
  · exact List.mem_append_left _ hr

lemma dict_insert_dest {l : Orders} {k : OrderId} {v : OrderInfo}
    {r : OrderId × OrderInfo} (h : r ∈ dict_insert l k v) :
    r ∈ l ∨ r = (k, v) := by
  unfold dict_insert at h
  split_ifs at h
  · rcases List.mem_map.mp h with ⟨r', hr', he⟩
    by_cases hk : r'.1 = k
    · right
      rw [← he, if_pos hk]
    · left
      rwa [← he, if_neg hk]
  · rcases List.mem_append.mp h with h' | h'
    · exact Or.inl h'
    · right
      simpa using h'

lemma handle_cases (grid_prices : List ℚ) (qty : ℚ)
    (place_ok : Side → ℚ → Bool) (now : ℕ) (orders : Orders)
    (f : OrderInfo) :
    handle_filled_order grid_prices qty place_ok now orders f = (orders, [])
    ∨ ∃ np, handle_filled_order grid_prices qty place_ok now orders f =
        (dict_insert orders (OrderId.rebalanceId (opposite f.side) np now)
          { price := np, side := opposite f.side, status := OrderStatus.active },
         [DbEvent.addOrderEv (OrderId.rebalanceId (opposite f.side) np now)
            (opposite f.side) np qty OrderStatus.active]) := by
  unfold handle_filled_order
  cases hf : find_next_grid_level grid_prices f.price f.side with
  | none => exact Or.inl rfl
  | some np =>
    by_cases hp : place_ok (opposite f.side) np = true
    · exact Or.inr ⟨np, by simp [hp]⟩
    · exact Or.inl (by simp [hp])

lemma handle_preserve {grid_prices : List ℚ} {qty : ℚ}
    {place_ok : Side → ℚ → Bool} {now : ℕ} {orders : Orders}
    {f : OrderInfo} {r : OrderId × OrderInfo} (hr : r ∈ orders)
    (hk : (∀ s q, r.1 ≠ OrderId.rebalanceId s q now) ∨ pass_entry now r) :
    r ∈ (handle_filled_order grid_prices qty place_ok now orders f).1 := by
  rcases handle_cases grid_prices qty place_ok now orders f with h | ⟨np, h⟩
  · rw [h]
    exact hr
  · rw [h]
    rcases hk with hk | ⟨s, q, rfl⟩
    · exact dict_insert_mem_of_ne hr (hk _ _)
    · by_cases he : OrderId.rebalanceId s q now =
          OrderId.rebalanceId (opposite f.side) np now
      · obtain ⟨rfl, rfl⟩ : s = opposite f.side ∧ q = np := by
          injection he with h1 h2 h3
          exact ⟨h1, h2⟩
        exact dict_insert_mem_of_eq_val hr
      · exact dict_insert_mem_of_ne hr he

lemma handle_dest {grid_prices : List ℚ} {qty : ℚ}
    {place_ok : Side → ℚ → Bool} {now : ℕ} {orders : Orders}
    {f : OrderInfo} {r : OrderId × OrderInfo}
    (h : r ∈ (handle_filled_order grid_prices qty place_ok now orders f).1) :
    r ∈ orders ∨ pass_entry now r := by
  rcases handle_cases grid_prices qty place_ok now orders f with he | ⟨np, he⟩
  · rw [he] at h
    exact Or.inl h
  · rw [he] at h
    rcases dict_insert_dest h with h' | h'
    · exact Or.inl h'
    · exact Or.inr ⟨opposite f.side, np, h'⟩

lemma handle_length (grid_prices : List ℚ) (qty : ℚ)
    (place_ok : Side → ℚ → Bool) (now : ℕ) (orders : Orders) (f : OrderInfo) :
    orders.length ≤
      (handle_filled_order grid_prices qty place_ok now orders f).1.length := by
  rcases handle_cases grid_prices qty place_ok now orders f with h | ⟨np, h⟩
  · rw [h]
  · rw [h]
    exact dict_insert_length _ _ _

lemma handle_events {grid_prices : List ℚ} {qty : ℚ}
    {place_ok : Side → ℚ → Bool} {now : ℕ} {orders : Orders} {f : OrderInfo}
    {e : DbEvent}
    (h : e ∈ (handle_filled_order grid_prices qty place_ok now orders f).2) :
    ∃ id s p q, e = DbEvent.addOrderEv id s p q OrderStatus.active := by
  rcases handle_cases grid_prices qty place_ok now orders f with he | ⟨np, he⟩
  · rw [he] at h
    simp at h
  · rw [he] at h
    rcases List.mem_singleton.mp h with rfl
    exact ⟨_, _, _, _, rfl⟩

lemma fold_preserve {grid_prices : List ℚ} {qty : ℚ}
    {place_ok : Side → ℚ → Bool} {now : ℕ} (filledL : Orders)
    (init : Orders × List DbEvent) {r : OrderId × OrderInfo}
    (hr : r ∈ init.1)
    (hk : (∀ s q, r.1 ≠ OrderId.rebalanceId s q now) ∨ pass_entry now r) :
    r ∈ (filledL.foldl (rebalance_step grid_prices qty place_ok now) init).1 := by
  induction filledL generalizing init with
  | nil => exact hr
  | cons f fs ih =>
    exact ih (rebalance_step grid_prices qty place_ok now init f)
      (handle_preserve hr hk)

lemma fold_dest {grid_prices : List ℚ} {qty : ℚ}
    {place_ok : Side → ℚ → Bool} {now : ℕ} (filledL : Orders)
    (init : Orders × List DbEvent) {r : OrderId × OrderInfo}
    (h : r ∈ (filledL.foldl (rebalance_step grid_prices qty place_ok now) init).1) :
    r ∈ init.1 ∨ pass_entry now r := by
  induction filledL generalizing init with
  | nil => exact Or.inl h
  | cons f fs ih =>
    rcases ih (rebalance_step grid_prices qty place_ok now init f) h with h' | h'
    · rcases handle_dest h' with h'' | h''
      · exact Or.inl h''
      · exact Or.inr h''
    · exact Or.inr h'

lemma fold_length {grid_prices : List ℚ} {qty : ℚ}
    {place_ok : Side → ℚ → Bool} {now : ℕ} (filledL : Orders)
    (init : Orders × List DbEvent) :
    init.1.length ≤
      (filledL.foldl (rebalance_step grid_prices qty place_ok now) init).1.length := by
  induction filledL generalizing init with
  | nil => exact le_refl _
  | cons f fs ih =>
    calc init.1.length
        ≤ (rebalance_step grid_prices qty place_ok now init f).1.length :=
          handle_length _ _ _ _ _ _
      _ ≤ _ := ih _

lemma fold_events_sub {grid_prices : List ℚ} {qty : ℚ}
    {place_ok : Side → ℚ → Bool} {now : ℕ} (filledL : Orders)
    (init : Orders × List DbEvent) {e : DbEvent} (he : e ∈ init.2) :
    e ∈ (filledL.foldl (rebalance_step grid_prices qty place_ok now) init).2 := by
  induction filledL generalizing init with
  | nil => exact he
  | cons f fs ih =>
    exact ih (rebalance_step grid_prices qty place_ok now init f)
      (List.mem_append_left _ he)

lemma fold_events_dest {grid_prices : List ℚ} {qty : ℚ}
    {place_ok : Side → ℚ → Bool} {now : ℕ} (filledL : Orders)
    (init : Orders × List DbEvent) {e : DbEvent}
    (h : e ∈ (filledL.foldl (rebalance_step grid_prices qty place_ok now) init).2) :
    e ∈ init.2 ∨ ∃ id s p q, e = DbEvent.addOrderEv id s p q OrderStatus.active := by
  induction filledL generalizing init with
  | nil => exact Or.inl h
  | cons f fs ih =>
    rcases ih (rebalance_step grid_prices qty place_ok now init f) h with h' | h'
    · rcases List.mem_append.mp h' with h'' | h''
      · exact Or.inl h''
      · exact Or.inr (handle_events h'')
    · exact Or.inr h'

lemma filled_this_pass_mem {open_ids : List OrderId} {orders : Orders}
    {id : OrderId} {info : OrderInfo} (hmem : (id, info) ∈ orders)
    (hact : info.status = OrderStatus.active) (hop : id ∉ open_ids) :
    (id, info) ∈ filled_this_pass open_ids orders :=
  List.mem_filter.mpr ⟨hmem, (is_filled_now_iff open_ids (id, info)).mpr ⟨hact, hop⟩⟩

lemma mark_events_mem {open_ids : List OrderId} (qty : ℚ) (now : ℕ)
    {orders : Orders} {id : OrderId} {info : OrderInfo}
    (hmem : (id, info) ∈ orders) (hact : info.status = OrderStatus.active)
    (hop : id ∉ open_ids) :
    DbEvent.updateOrderStatusEv id OrderStatus.filled now ∈
      mark_events open_ids qty now orders
    ∧ DbEvent.addTradeEv info.side info.price qty ∈
      mark_events open_ids qty now orders := by
  have hf := filled_this_pass_mem hmem hact hop
  constructor
  · exact List.mem_flatten.mpr
      ⟨_, List.mem_map_of_mem _ hf, List.mem_cons_self _ _⟩
  · exact List.mem_flatten.mpr
      ⟨_, List.mem_map_of_mem _ hf, by simp⟩

lemma mark_events_dest {open_ids : List OrderId} {qty : ℚ} {now : ℕ}
    {orders : Orders} {e : DbEvent} (h : e ∈ mark_events open_ids qty now orders) :
    ∃ r ∈ filled_this_pass open_ids orders,
      e = DbEvent.updateOrderStatusEv r.1 OrderStatus.filled now
      ∨ e = DbEvent.addTradeEv r.2.side r.2.price qty := by
  rcases List.mem_flatten.mp h with ⟨l, hl, hel⟩
  rcases List.mem_map.mp hl with ⟨r, hr, rfl⟩
  rcases List.mem_cons.mp hel with rfl | hel'
  · exact ⟨r, hr, Or.inl rfl⟩
  · rcases List.mem_singleton.mp hel' with rfl
    exact ⟨r, hr, Or.inr rfl⟩

lemma init_order_price {cp p : ℚ} {r : OrderId × OrderInfo}
    (h : init_order cp p = some r) : r.2.price = p := by
  unfold init_order at h
  split_ifs at h
  · cases h
    rfl
  · cases h
    rfl

lemma status_partition (l : Orders)
    (h : ∀ r ∈ l, r.2.status ≠ OrderStatus.cancelled) :
    l.length =
      (l.filter fun r =>
        r.2.side = Side.Buy ∧ r.2.status = OrderStatus.active).length
      + (l.filter fun r =>
        r.2.side = Side.Sell ∧ r.2.status = OrderStatus.active).length
      + (l.filter fun r => r.2.status = OrderStatus.filled).length := by
  induction l with
  | nil => simp
  | cons r t ih =>
    have hr := h r (List.mem_cons_self r t)
    have ht := ih fun x hx => h x (List.mem_cons_of_mem r hx)
    obtain ⟨id, price, side, status⟩ := r
    cases side <;> cases status <;>
      first
      | exact absurd rfl hr
      | (simp only [List.filter_cons, List.length_cons]
         split_ifs <;> (try simp only [List.length_cons]) <;>
           first
           | omega
           | (exfalso; simp_all))

/-- C2: during one reconciliation pass, exactly the locally tracked
records that are Active and whose correlation id is absent from the
exchange's open-order set transition to Filled; each such transition
persists an order-status update stamped with the pass's fill timestamp
and a trade record carrying the order's side, price and quantity; Active
records whose id is still open are carried over unchanged; and every
persisted status update of the pass comes from exactly such a record.
(`hfresh` says the pass timestamp's generated ids are not already in
use, which holds for real runs since `int(time.time())` ids are only
minted during the pass itself.) -/
theorem reconciliation_fill_detection (grid_prices : List ℚ)
    (order_amount : ℚ) (place_ok : Side → ℚ → Bool) (now : ℕ)
    (open_ids : List OrderId) (orders : Orders)
    (hfresh : ∀ r ∈ orders, ∀ s q, r.1 ≠ OrderId.rebalanceId s q now) :
    (∀ id info, (id, info) ∈ orders → info.status = OrderStatus.active →
      id ∉ open_ids →
      (id, { info with status := OrderStatus.filled }) ∈
        (check_and_rebalance grid_prices order_amount place_ok now open_ids orders).1
      ∧ DbEvent.updateOrderStatusEv id OrderStatus.filled now ∈
        (check_and_rebalance grid_prices order_amount place_ok now open_ids orders).2
      ∧ DbEvent.addTradeEv info.side info.price order_amount ∈
        (check_and_rebalance grid_prices order_amount place_ok now open_ids orders).2)
    ∧ (∀ id info, (id, info) ∈ orders → info.status = OrderStatus.active →
      id ∈ open_ids →
      (id, info) ∈
        (check_and_rebalance grid_prices order_amount place_ok now open_ids orders).1)
    ∧ (∀ id st ts, DbEvent.updateOrderStatusEv id st ts ∈
        (check_and_rebalance grid_prices order_amount place_ok now open_ids orders).2 →
      st = OrderStatus.filled ∧ ts = now ∧
      ∃ info, (id, info) ∈ orders ∧ info.status = OrderStatus.active ∧
        id ∉ open_ids) := by
  have hcr : check_and_rebalance grid_prices order_amount place_ok now open_ids
      orders =
      (filled_this_pass open_ids orders).foldl
        (rebalance_step grid_prices order_amount place_ok now)
        (mark_filled open_ids orders,
          mark_events open_ids order_amount now orders) := rfl
  refine ⟨?_, ?_, ?_⟩
  · intro id info hmem hact hop
    have hfill : is_filled_now open_ids (id, info) = true :=
      (is_filled_now_iff open_ids (id, info)).mpr ⟨hact, hop⟩
    have hm := mark_filled_mem open_ids hmem
    rw [if_pos hfill] at hm
    have hkey : ∀ s q, (id, { info with status := OrderStatus.filled }).1 ≠
        OrderId.rebalanceId s q now := hfresh (id, info) hmem
    have hev := mark_events_mem order_amount now hmem hact hop
    rw [hcr]
    exact ⟨fold_preserve _ _ hm (Or.inl hkey),
      fold_events_sub _ _ hev.1, fold_events_sub _ _ hev.2⟩
  · intro id info hmem hact hop
    have hfill : is_filled_now open_ids (id, info) = false := by
      rw [← Bool.not_eq_true]
      intro hc
      exact absurd hop (by simpa using ((is_filled_now_iff _ _).mp hc).2)
    have hm := mark_filled_mem open_ids hmem
    rw [if_neg (by simp [hfill])] at hm
    rw [hcr]
    exact fold_preserve _ _ hm (Or.inl (hfresh (id, info) hmem))
  · intro id st ts hev
    rw [hcr] at hev
    rcases fold_events_dest _ _ hev with h' | ⟨_, _, _, _, h'⟩
    · rcases mark_events_dest h' with ⟨r, hr, he | he⟩
      · rcases List.mem_filter.mp hr with ⟨hmem, hfn⟩
        rcases (is_filled_now_iff _ _).mp hfn with ⟨hact, hop⟩
        injection he with h1 h2 h3
        exact ⟨h2, h3, r.2, by rwa [h1, Prod.mk.eta], hact, h1 ▸ hop⟩
      · exact absurd he (by simp)
    · exact absurd h' (by simp)

/-- C2 witness: a single active Buy at `125`, absent from the exchange's
(empty) open set, transitions to Filled with its status update and trade
record persisted. -/
theorem reconciliation_fill_detection_witness :
    (OrderId.initId Side.Buy 125,
      { price := 125, side := Side.Buy, status := OrderStatus.filled }) ∈
      (check_and_rebalance [100, 125, 150] 1 (fun _ _ => true) 7 []
        [(OrderId.initId Side.Buy 125,
          { price := 125, side := Side.Buy, status := OrderStatus.active })]).1
    ∧ DbEvent.updateOrderStatusEv (OrderId.initId Side.Buy 125)
        OrderStatus.filled 7 ∈
      (check_and_rebalance [100, 125, 150] 1 (fun _ _ => true) 7 []
        [(OrderId.initId Side.Buy 125,
          { price := 125, side := Side.Buy, status := OrderStatus.active })]).2
    ∧ DbEvent.addTradeEv Side.Buy 125 1 ∈
      (check_and_rebalance [100, 125, 150] 1 (fun _ _ => true) 7 []
        [(OrderId.initId Side.Buy 125,
          { price := 125, side := Side.Buy, status := OrderStatus.active })]).2 :=
  (reconciliation_fill_detection [100, 125, 150] 1 (fun _ _ => true) 7 []
    [(OrderId.initId Side.Buy 125,
      { price := 125, side := Side.Buy, status := OrderStatus.active })]
    (by
      intro r hr s q
      rcases List.mem_singleton.mp hr with rfl
      exact fun h => OrderId.noConfusion h)).1
    (OrderId.initId Side.Buy 125)
    { price := 125, side := Side.Buy, status := OrderStatus.active }
    (List.mem_singleton.mpr rfl) rfl (by simp)

/-- C7 counterexample: the engine can reach a state with two Active
records at the same `(price, side)` pair.  Initialize on the grid
`[100, 125, 150, 175, 200]` at current price `130` (active Buys at 100
and 125, active Sells at 150, 175, 200); then one reconciliation pass in
which the Buy at `125` fills places a replacement Sell at `150` while
the initial Sell at `150` is still active — two Active `(150, Sell)`
records under distinct correlation ids. -/
theorem duplicate_active_price_side :
    ((OrderId.initId Side.Sell 150,
      { price := 150, side := Side.Sell, status := OrderStatus.active }) ∈
      (check_and_rebalance [100, 125, 150, 175, 200] 1 (fun _ _ => true) 999
        [OrderId.initId Side.Buy 100, OrderId.initId Side.Sell 150,
         OrderId.initId Side.Sell 175, OrderId.initId Side.Sell 200]
        (initialize_grid [100, 125, 150, 175, 200] 130)).1)
    ∧ ((OrderId.rebalanceId Side.Sell 150 999,
      { price := 150, side := Side.Sell, status := OrderStatus.active }) ∈
      (check_and_rebalance [100, 125, 150, 175, 200] 1 (fun _ _ => true) 999
        [OrderId.initId Side.Buy 100, OrderId.initId Side.Sell 150,
         OrderId.initId Side.Sell 175, OrderId.initId Side.Sell 200]
        (initialize_grid [100, 125, 150, 175, 200] 130)).1)
    ∧ ((check_and_rebalance [100, 125, 150, 175, 200] 1 (fun _ _ => true) 999
        [OrderId.initId Side.Buy 100, OrderId.initId Side.Sell 150,
         OrderId.initId Side.Sell 175, OrderId.initId Side.Sell 200]
        (initialize_grid [100, 125, 150, 175, 200] 130)).1.countP
          fun r => r.2.price = 150 ∧ r.2.side = Side.Sell ∧
            r.2.status = OrderStatus.active) = 2 := by
  refine ⟨?_, ?_, ?_⟩ <;> decide

/-- C7 amended: uniqueness of `(price, side)` among Active records holds
after initialization (each grid level contributes at most one order),
but reconciliation does not preserve it: a replacement order may target
a level that already carries an Active order of the same side, and both
are kept under distinct correlation ids.  The engine only guarantees
uniqueness of correlation ids, not of `(price, side)` pairs. -/
theorem unique_active_pair_after_init (grid_prices : List ℚ)
    (current_price : ℚ) (hnd : grid_prices.Nodup) :
    (initialize_grid grid_prices current_price).Pairwise
      (fun a b => ¬(a.2.price = b.2.price ∧ a.2.side = b.2.side)) := by
  unfold initialize_grid
  refine List.Pairwise.filterMap (init_order current_price) ?_ hnd
  intro a a' hne b hb b' hb'
  have hpa : b.2.price = a := init_order_price hb
  have hpa' : b'.2.price = a' := init_order_price hb'
  rintro ⟨hp, -⟩
  exact hne (by rw [← hpa, ← hpa', hp])

/-- C7 amended witness: the after-initialization uniqueness at the
concrete grid `[100, 125, 150, 175, 200]` and current price `130`. -/
theorem unique_active_pair_after_init_witness :
    (initialize_grid [100, 125, 150, 175, 200] 130).Pairwise
      (fun a b => ¬(a.2.price = b.2.price ∧ a.2.side = b.2.side)) :=
  unique_active_pair_after_init [100, 125, 150, 175, 200] 130 (by decide)

/-- C10: a reconciliation pass never removes an order record and never
moves a record from Filled back to Active: Filled records are carried
over verbatim, Active records are either carried over (still open) or
re-recorded as Filled (no longer open), and only new Active records are
added, so the record count is non-decreasing; the Cancelled state is
never assigned, so every record stays Active or Filled and the snapshot
equation `total_orders = active_buys + active_sells + filled_orders`
holds for every status read; records are removed only by shutdown, which
clears the whole set.  (`hfresh` as in the fill-detection theorem.) -/
theorem reconciliation_pass_invariants (grid_prices : List ℚ)
    (order_amount : ℚ) (place_ok : Side → ℚ → Bool) (now : ℕ)
    (open_ids : List OrderId) (orders : Orders)
    (hst : ∀ r ∈ orders, r.2.status ≠ OrderStatus.cancelled)
    (hfresh : ∀ r ∈ orders, ∀ s q, r.1 ≠ OrderId.rebalanceId s q now) :
    orders.length ≤
      (check_and_rebalance grid_prices order_amount place_ok now open_ids orders).1.length
    ∧ (∀ r ∈ (check_and_rebalance grid_prices order_amount place_ok now open_ids
        orders).1, r.2.status ≠ OrderStatus.cancelled)
    ∧ (∀ r ∈ orders, r.2.status = OrderStatus.filled →
        r ∈ (check_and_rebalance grid_prices order_amount place_ok now open_ids
          orders).1)
    ∧ (∀ r ∈ orders, r.2.status = OrderStatus.active →
        r ∈ (check_and_rebalance grid_prices order_amount place_ok now open_ids
          orders).1
        ∨ (r.1, { r.2 with status := OrderStatus.filled }) ∈
          (check_and_rebalance grid_prices order_amount place_ok now open_ids
            orders).1)
    ∧ (get_status_counts (check_and_rebalance grid_prices order_amount place_ok
        now open_ids orders).1).1 =
      (get_status_counts (check_and_rebalance grid_prices order_amount place_ok
        now open_ids orders).1).2.1
      + (get_status_counts (check_and_rebalance grid_prices order_amount place_ok
        now open_ids orders).1).2.2.1
      + (get_status_counts (check_and_rebalance grid_prices order_amount place_ok
        now open_ids orders).1).2.2.2
    ∧ stop_orders orders = [] := by
  have hcr : check_and_rebalance grid_prices order_amount place_ok now open_ids
      orders =
      (filled_this_pass open_ids orders).foldl
        (rebalance_step grid_prices order_amount place_ok now)
        (mark_filled open_ids orders,
          mark_events open_ids order_amount now orders) := rfl
  have hstatuses : ∀ r ∈ (check_and_rebalance grid_prices order_amount place_ok
      now open_ids orders).1, r.2.status ≠ OrderStatus.cancelled := by
    intro r hr
    rw [hcr] at hr
    rcases fold_dest _ _ hr with h' | ⟨s, q, rfl⟩
    · rcases mark_filled_src h' with ⟨r₀, hr₀, he⟩
      by_cases hf : is_filled_now open_ids r₀ = true
      · rw [he, if_pos hf]
        simp
      · rw [he, if_neg (by simp [Bool.not_eq_true] at hf; simp [hf])]
        exact hst r₀ hr₀
    · simp
  refine ⟨?_, hstatuses, ?_, ?_, ?_, rfl⟩
  · rw [hcr]
    calc orders.length = (mark_filled open_ids orders).length :=
        (mark_filled_length open_ids orders).symm
      _ ≤ _ := fold_length (filled_this_pass open_ids orders)
        (mark_filled open_ids orders, mark_events open_ids order_amount now orders)
  · intro r hr hfil
    have hfn : is_filled_now open_ids r = false := by
      simp [is_filled_now, hfil]
    have hm := mark_filled_mem open_ids hr
    rw [if_neg (by simp [hfn])] at hm
    rw [hcr]
    exact fold_preserve _ _ hm (Or.inl (hfresh r hr))
  · intro r hr hact
    by_cases hop : r.1 ∈ open_ids
    · left
      have hfn : is_filled_now open_ids r = false := by
        simp [is_filled_now, hop]
      have hm := mark_filled_mem open_ids hr
      rw [if_neg (by simp [hfn])] at hm
      rw [hcr]
      exact fold_preserve _ _ hm (Or.inl (hfresh r hr))
    · right
      have hfn : is_filled_now open_ids r = true :=
        (is_filled_now_iff open_ids r).mpr ⟨hact, hop⟩
      have hm := mark_filled_mem open_ids hr
      rw [if_pos hfn] at hm
      rw [hcr]
      exact fold_preserve _ _ hm (Or.inl (hfresh r hr))
  · exact status_partition _ hstatuses

/-- C10 witness: the invariants at a concrete one-record state (an
active Buy at `100` that fills in the pass on the grid `[100, 125]`). -/
theorem reconciliation_pass_invariants_witness :
    ([(OrderId.initId Side.Buy 100,
      { price := 100, side := Side.Buy, status := OrderStatus.active })] :
        Orders).length ≤
      (check_and_rebalance [100, 125] 1 (fun _ _ => true) 7 []
        [(OrderId.initId Side.Buy 100,
          { price := 100, side := Side.Buy, status := OrderStatus.active })]).1.length
    ∧ (get_status_counts (check_and_rebalance [100, 125] 1 (fun _ _ => true) 7 []
        [(OrderId.initId Side.Buy 100,
          { price := 100, side := Side.Buy, status := OrderStatus.active })]).1).1 =
      (get_status_counts (check_and_rebalance [100, 125] 1 (fun _ _ => true) 7 []
        [(OrderId.initId Side.Buy 100,
          { price := 100, side := Side.Buy, status := OrderStatus.active })]).1).2.1
      + (get_status_counts (check_and_rebalance [100, 125] 1 (fun _ _ => true) 7 []
        [(OrderId.initId Side.Buy 100,
          { price := 100, side := Side.Buy, status := OrderStatus.active })]).1).2.2.1
      + (get_status_counts (check_and_rebalance [100, 125] 1 (fun _ _ => true) 7 []
        [(OrderId.initId Side.Buy 100,
          { price := 100, side := Side.Buy, status := OrderStatus.active })]).1).2.2.2 := by
  have h := reconciliation_pass_invariants [100, 125] 1 (fun _ _ => true) 7 []
    [(OrderId.initId Side.Buy 100,
      { price := 100, side := Side.Buy, status := OrderStatus.active })]
    (by
      intro r hr
      rcases List.mem_singleton.mp hr with rfl
      simp)
    (by
      intro r hr s q
      rcases List.mem_singleton.mp hr with rfl
      exact fun hc => OrderId.noConfusion hc)
  exact ⟨h.1, h.2.2.2.2.1⟩

end GridBot
